import Mathlib

/-!
Verification of the pr070c01 transport protocol core: the packet codec
(src/packets.rs), the frame writer and reader state machines (src/write.rs,
src/read.rs), the protocol layer's decode cursor (src/lib.rs), and the
handshake engines (src/initiate.rs, src/respond.rs).

Byte buffers are modelled as `List Nat` whose entries stand for `u8` values;
`u16` little-endian reads reduce each entry modulo 256, as the Rust `u8` type
guarantees. Fallible Rust functions returning `Result` are modelled with
`Except Err`.
-/

namespace Pr070c01

-- ======================================== Constants ========================================= --

/-- Modelled from the spec: the constants of the external `packets` crate
(spec, section 6): `NOISE_MAX_LEN = 65535`. -/
def NOISE_MAX_LEN : Nat := 65535

/-- Modelled from the spec: AEAD authentication-tag overhead, 16 bytes. -/
def NOISE_OVERHEAD : Nat := 16

/-- Modelled from the spec: `RAW_MAX_LEN = NOISE_MAX_LEN - 2 = 65533`. -/
def RAW_MAX_LEN : Nat := NOISE_MAX_LEN - 2

/-- Modelled from the spec: `MSG_MAX_LEN = RAW_MAX_LEN - 16 = 65517`. -/
def MSG_MAX_LEN : Nat := RAW_MAX_LEN - NOISE_OVERHEAD

/-- Modelled from the spec: `MSG_OVERHEAD` of the external `packets` crate:
the per-frame overhead over the plaintext, the 2-byte length field plus the
16-byte AEAD tag (spec, section 6: frame length field overhead = 2 bytes,
AEAD overhead = 16 bytes). -/
def MSG_OVERHEAD : Nat := NOISE_OVERHEAD + 2

-- ========================================== Types =========================================== --

/-- PacketId from src/packets.rs: `Heartbeat = 0`, `Hello = 1`. -/
inductive PacketId
  | heartbeat
  | hello
deriving DecidableEq, Repr

/-- Errors of the crate (src/lib.rs `Error` together with the packet-level
variants the packets iteration uses: `PacketId`, `WrongPacketId`, and the
unknown-id failure of `PacketId::try_from`). `messageSize` covers the
`MessageSize`/`InvalidSize{max, actual}` kind of the taxonomy. -/
inductive Err
  | bufferSize (min actual : Nat)
  | messageSize (max actual : Nat)
  | ioErr
  | noise
  | packetId (id : PacketId)
  | wrongPacketId (id : PacketId)
  | unknownPacketId (value : Nat)
deriving DecidableEq, Repr

/-- Value of `*self as u16` for a `PacketId` (src/packets.rs `#[repr(u16)]`). -/
def PacketId.toU16 : PacketId → Nat
  | .heartbeat => 0
  | .hello => 1

/-- Little-endian bytes of `(n as u16).to_le_bytes()`. -/
def u16le (n : Nat) : List Nat := [n % 256, (n / 256) % 256]

/-- Value of `u16::from_le_bytes([b0, b1])`; the `% 256` models the `u8` type
of the two bytes. -/
def u16OfLe (b0 b1 : Nat) : Nat := b0 % 256 + 256 * (b1 % 256)

/-- PublicKey of the external ed25519 crate, represented by its 32 bytes
(`as_bytes`). -/
structure PublicKey where
  bytes : List Nat
deriving DecidableEq, Repr

/-- Hash of the external sp4r53 crate, represented by its 32 bytes. -/
structure Hash where
  bytes : List Nat
deriving DecidableEq, Repr

/-- Signature of the external ed25519 crate, represented by its 64 bytes
(`to_bytes`). -/
structure Signature where
  bytes : List Nat
deriving DecidableEq, Repr

/-- Root from src/packets.rs: a 32-byte hash and a 64-byte signature. -/
structure Root where
  hash : Hash
  sig : Signature
deriving DecidableEq, Repr

/-- Heartbeat from src/packets.rs: a unit packet. -/
inductive Heartbeat
  | mk
deriving DecidableEq, Repr

/-- Hello from src/packets.rs: public identity key plus `Root`. -/
structure Hello where
  id : PublicKey
  root : Root
deriving DecidableEq, Repr

-- ========================================== Encode ========================================== --

/-- Encode impl for `[u8]` (src/packets.rs): copy the slice to the front of
the buffer, failing with `BufferSize` when the buffer is smaller. Returns the
written count and the updated buffer. -/
def encodeSlice (data buf : List Nat) : Except Err (Nat × List Nat) :=
  if buf.length < data.length then .error (.bufferSize data.length buf.length)
  else .ok (data.length, data ++ buf.drop data.length)

/-- Encode impl for `PacketId` (src/packets.rs): the id as little-endian u16
in the first 2 bytes. -/
def PacketId.encode (pid : PacketId) (buf : List Nat) : Except Err (Nat × List Nat) :=
  if buf.length < 2 then .error (.bufferSize 2 buf.length)
  else .ok (2, u16le pid.toU16 ++ buf.drop 2)

/-- Encode impl for `PublicKey` (src/packets.rs): 32 bytes of `as_bytes`. -/
def PublicKey.encode (k : PublicKey) (buf : List Nat) : Except Err (Nat × List Nat) :=
  if buf.length < 32 then .error (.bufferSize 32 buf.length)
  else .ok (32, k.bytes ++ buf.drop 32)

/-- Encode impl for `Hash` (src/packets.rs): 32 bytes of `as_bytes`. -/
def Hash.encode (h : Hash) (buf : List Nat) : Except Err (Nat × List Nat) :=
  if buf.length < 32 then .error (.bufferSize 32 buf.length)
  else .ok (32, h.bytes ++ buf.drop 32)

/-- Encode impl for `Signature` (src/packets.rs): 64 bytes of `to_bytes`. -/
def Signature.encode (s : Signature) (buf : List Nat) : Except Err (Nat × List Nat) :=
  if buf.length < 64 then .error (.bufferSize 64 buf.length)
  else .ok (64, s.bytes ++ buf.drop 64)

/-- Encode impl for `Root` (src/packets.rs): hash then signature, with the
running offset of the Rust code made explicit by splicing sub-buffers. -/
def Root.encode (r : Root) (buf : List Nat) : Except Err (Nat × List Nat) := do
  let (n1, b1) ← r.hash.encode buf
  let (n2, s2) ← r.sig.encode (b1.drop n1)
  .ok (n1 + n2, b1.take n1 ++ s2)

/-- Encode impl for `Heartbeat` (src/packets.rs): packet id then 2 reserved
zero bytes. -/
def Heartbeat.encode (_p : Heartbeat) (buf : List Nat) : Except Err (Nat × List Nat) := do
  let (n1, b1) ← PacketId.encode .heartbeat buf
  let (n2, s2) ← encodeSlice [0, 0] (b1.drop n1)
  .ok (n1 + n2, b1.take n1 ++ s2)

/-- Encode impl for `Hello` (src/packets.rs): packet id, 2 reserved bytes,
public key, then `Root`. -/
def Hello.encode (p : Hello) (buf : List Nat) : Except Err (Nat × List Nat) := do
  let (n1, b1) ← PacketId.encode .hello buf
  let (n2, s2) ← encodeSlice [0, 0] (b1.drop n1)
  let b2 := b1.take n1 ++ s2
  let (n3, s3) ← p.id.encode (b2.drop (n1 + n2))
  let b3 := b2.take (n1 + n2) ++ s3
  let (n4, s4) ← p.root.encode (b3.drop (n1 + n2 + n3))
  .ok (n1 + n2 + n3 + n4, b3.take (n1 + n2 + n3) ++ s4)

-- ========================================== Decode ========================================== --

/-- PacketId::try_from of the `num_enum` derive: 0 and 1 are known ids. -/
def PacketId.tryFrom (v : Nat) : Except Err PacketId :=
  if v = 0 then .ok .heartbeat
  else if v = 1 then .ok .hello
  else .error (.unknownPacketId v)

/-- Decode impl for `PacketId` (src/packets.rs): read a little-endian u16 and
convert it, consuming 2 bytes. -/
def PacketId.decode (buf : List Nat) : Except Err (PacketId × Nat) :=
  if buf.length < 2 then .error (.bufferSize 2 buf.length)
  else do
    let pid ← PacketId.tryFrom (u16OfLe (buf.getD 0 0) (buf.getD 1 0))
    .ok (pid, 2)

/-- The `decode_bytes!` macro's Decode impl for `[u8; n]` (src/packets.rs). -/
def decodeBytes (n : Nat) (buf : List Nat) : Except Err (List Nat × Nat) :=
  if buf.length < n then .error (.bufferSize n buf.length)
  else .ok (buf.take n, n)

/-- Modelled from the spec: key parsing of the external signature primitive
(spec, section 6). A valid public key is represented by its 32 bytes, and
parsing the bytes of a valid key yields that key back. -/
def PublicKey.fromBytes (b : List Nat) : Except Err PublicKey := .ok ⟨b⟩

/-- Decode impl for `PublicKey` (src/packets.rs): 32 bytes via `from_bytes`. -/
def PublicKey.decode (buf : List Nat) : Except Err (PublicKey × Nat) :=
  if buf.length < 32 then .error (.bufferSize 32 buf.length)
  else do
    let k ← PublicKey.fromBytes (buf.take 32)
    .ok (k, 32)

/-- Decode impl for `Hash` (src/packets.rs): `Hash::from` of the first 32
bytes. -/
def Hash.decode (buf : List Nat) : Except Err (Hash × Nat) :=
  if buf.length < 32 then .error (.bufferSize 32 buf.length)
  else .ok (⟨buf.take 32⟩, 32)

/-- Modelled from the spec: signature parsing of the external signature
primitive (spec, section 6); a signature is represented by its 64 bytes. -/
def Signature.fromBytes (b : List Nat) : Except Err Signature := .ok ⟨b⟩

/-- Decode impl for `Signature` (src/packets.rs): 64 bytes via `try_from`. -/
def Signature.decode (buf : List Nat) : Except Err (Signature × Nat) :=
  if buf.length < 64 then .error (.bufferSize 64 buf.length)
  else do
    let s ← Signature.fromBytes (buf.take 64)
    .ok (s, 64)

/-- Decode impl for `Root` (src/packets.rs): hash then signature. -/
def Root.decode (buf : List Nat) : Except Err (Root × Nat) := do
  let (h, n1) ← Hash.decode buf
  let (s, n2) ← Signature.decode (buf.drop n1)
  .ok (⟨h, s⟩, n1 + n2)

/-- Decode impl for `Heartbeat` (src/packets.rs): id (validated against the
expected tag) then 2 reserved bytes. -/
def Heartbeat.decode (buf : List Nat) : Except Err (Heartbeat × Nat) := do
  let (pid, n1) ← PacketId.decode buf
  if pid ≠ PacketId.heartbeat then .error (.packetId pid)
  else do
    let (_, n2) ← decodeBytes 2 (buf.drop n1)
    .ok (.mk, n1 + n2)

/-- Decode impl for `Hello` (src/packets.rs): id (validated), 2 reserved
bytes, public key, then `Root`, with the running offset explicit. -/
def Hello.decode (buf : List Nat) : Except Err (Hello × Nat) := do
  let (pid, n1) ← PacketId.decode buf
  if pid ≠ PacketId.hello then .error (.packetId pid)
  else do
    let (_, n2) ← decodeBytes 2 (buf.drop n1)
    let (id, n3) ← PublicKey.decode (buf.drop (n1 + n2))
    let (root, n4) ← Root.decode (buf.drop (n1 + n2 + n3))
    .ok (⟨id, root⟩, n1 + n2 + n3 + n4)

-- ====================================== Protocol layer ====================================== --

/-- Protocol from src/lib.rs, restricted to the fields the decode cursor
logic touches: the plaintext scratch buffer `msg` and the cursor `next`
marking the pending bytes of the most recently decrypted frame. -/
structure Protocol where
  msg : List Nat
  next : Nat
deriving DecidableEq, Repr

/-- Protocol::peek_packet_id (src/lib.rs). `refill` stands for the result of
the frame-reader call `read(input, state, buf, msg)` performed when the
cursor is empty: on success it supplies the new contents of `msg` and the
decrypted length assigned to `next`. Returns the protocol state after the
call together with the result. -/
def Protocol.peekPacketId (p : Protocol) (refill : Except Err (List Nat × Nat)) :
    Protocol × Except Err PacketId :=
  if p.next = 0 then
    match refill with
    | .error e => (p, .error e)
    | .ok (m, n) =>
      let q : Protocol := ⟨m, n⟩
      match PacketId.decode (q.msg.take q.next) with
      | .ok (pid, _) => (q, .ok pid)
      | .error e => ({ q with next := 0 }, .error e)
  else
    match PacketId.decode (p.msg.take p.next) with
    | .ok (pid, _) => (p, .ok pid)
    | .error e => ({ p with next := 0 }, .error e)

/-- Protocol::try_recv (src/lib.rs), generic over the packet type `P`:
`expected` is `P::PACKET_ID` and `dec` is `P::decode`. Peeks the id, fails
with `WrongPacketId` on a tag mismatch, otherwise decodes from
`msg[0..next]` and subtracts the consumed count from `next`; a decode
failure clears the cursor. -/
def Protocol.tryRecv {α : Type} (expected : PacketId)
    (dec : List Nat → Except Err (α × Nat)) (p : Protocol)
    (refill : Except Err (List Nat × Nat)) : Protocol × Except Err α :=
  match p.peekPacketId refill with
  | (p', .error e) => (p', .error e)
  | (p', .ok pid) =>
    if pid ≠ expected then (p', .error (.wrongPacketId pid))
    else
      match dec (p'.msg.take p'.next) with
      | .ok (pkt, bytes) => ({ p' with next := p'.next - bytes }, .ok pkt)
      | .error e => ({ p' with next := 0 }, .error e)

-- ===================================== Buffer helpers ======================================= --

/-- Vec::resize to length `n`, zero-filling new entries. -/
def vecResize (b : List Nat) (n : Nat) : List Nat :=
  if b.length ≤ n then b ++ List.replicate (n - b.length) 0 else b.take n

/-- Overwrite `buf` at offset `off` with `data` (the effect of filling the
sub-slice `buf[off..off + data.length]`). -/
def storeAt (buf : List Nat) (off : Nat) (data : List Nat) : List Nat :=
  buf.take off ++ data ++ buf.drop (off + data.length)

-- ==================================== Frame writer (write.rs) =============================== --

/-- Outcome of one `poll_write` call on the underlying output stream:
`accept k` writes up to `k` bytes of the requested slice, `pending` suspends
(the machine is later resumed unchanged), `ioerr` is a transport failure. -/
inductive WEv
  | accept (k : Nat)
  | pending
  | ioerr
deriving DecidableEq, Repr

/-- WriteInner from src/write.rs, with the output handle and Noise state
abstracted away (the Noise state never changes the control flow). -/
inductive WIn
  | empty
  | prepare (msg buf : List Nat)
  | write (len offset : Nat) (msg buf : List Nat)
  | done (len : Nat) (msg buf : List Nat)
deriving DecidableEq, Repr

instance {α : Type} [DecidableEq α] : DecidableEq (Except Err α) := fun a b =>
  match a, b with
  | .ok x, .ok y =>
    if h : x = y then .isTrue (by rw [h]) else .isFalse (fun hh => h (Except.ok.inj hh))
  | .error x, .error y =>
    if h : x = y then .isTrue (by rw [h]) else .isFalse (fun hh => h (Except.error.inj hh))
  | .ok _, .error _ => .isFalse (fun hh => Except.noConfusion hh)
  | .error _, .ok _ => .isFalse (fun hh => Except.noConfusion hh)

/-- Result of driving a resumable machine: `stalled` when fuel or scheduled
stream events ran out with the operation still in flight, `crashed` when the
Rust code would abort (a failed assertion, an out-of-bounds slice, or an
arithmetic underflow), `ready r` when `poll` returns `Poll::Ready(r)`. -/
inductive MRes
  | stalled
  | crashed
  | ready (r : Except Err Nat)
deriving DecidableEq, Repr

/-- Final configuration of a frame-writer run: result, machine state,
unconsumed stream events, bytes emitted to the output, and the number of
`write_message` (encryption) calls performed. -/
structure WOut where
  res : MRes
  st : WIn
  evs : List WEv
  out : List Nat
  encs : Nat
deriving DecidableEq, Repr

/-- Write::poll from src/write.rs, driven to completion. `enc` is the Noise
`write_message` ciphertext for a payload (modelled from the spec: external
Noise engine, AEAD overhead 16; `write_message` fails when the target slice
`buf[2..]` cannot hold the ciphertext). One `WEv` is consumed per
`poll_write`; `pending` models a suspension followed by resumption of the
preserved state. `fuel` bounds the number of loop iterations. -/
def runWrite (enc : List Nat → List Nat) : Nat → WIn → List WEv → List Nat → Nat → WOut
  | 0, st, evs, out, encs => ⟨.stalled, st, evs, out, encs⟩
  | fuel + 1, st, evs, out, encs =>
    match st with
    | .empty => ⟨.crashed, .empty, evs, out, encs⟩
    | .prepare msg buf =>
      if msg.length > MSG_MAX_LEN then
        ⟨.ready (.error (.messageSize MSG_MAX_LEN msg.length)), .done 0 msg buf, evs, out, encs⟩
      else if msg.length + MSG_OVERHEAD > buf.length then
        runWrite enc fuel (.prepare msg (vecResize buf (msg.length + MSG_OVERHEAD))) evs out encs
      else
        let c := enc msg
        if c.length ≤ buf.length - 2 then
          runWrite enc fuel
            (.write (c.length + 2) 0 msg (u16le c.length ++ c ++ buf.drop (2 + c.length)))
            evs out (encs + 1)
        else ⟨.ready (.error .noise), .done 0 msg buf, evs, out, encs + 1⟩
    | .write len offset msg buf =>
      if offset ≥ len then ⟨.ready (.ok len), .done len msg buf, evs, out, encs⟩
      else
        match evs with
        | [] => ⟨.stalled, .write len offset msg buf, [], out, encs⟩
        | .accept k :: evs' =>
          let wrote := min k (len - offset)
          runWrite enc fuel (.write len (offset + wrote) msg buf) evs'
            (out ++ (buf.drop offset).take wrote) encs
        | .pending :: evs' => runWrite enc fuel (.write len offset msg buf) evs' out encs
        | .ioerr :: evs' => ⟨.ready (.error .ioErr), .done 0 msg buf, evs', out, encs⟩
    | .done len msg buf => ⟨.ready (.ok len), .done len msg buf, evs, out, encs⟩

/-- Output-stream event that makes progress: an `accept` of at least one
byte, or a suspension. A transport error is not good. -/
def WEv.good : WEv → Prop
  | .accept k => 1 ≤ k
  | .pending => True
  | .ioerr => False

instance : DecidablePred WEv.good := fun e => by
  cases e <;> simp only [WEv.good] <;> infer_instance

/-- Schedule of output-stream events in which every `accept` makes progress
and no transport error occurs. -/
def goodSched (evs : List WEv) : Prop := ∀ e ∈ evs, e.good

instance (evs : List WEv) : Decidable (goodSched evs) :=
  List.decidableBAll _ evs

/-- Number of `accept` events in a schedule. -/
def naccepts (evs : List WEv) : Nat :=
  (evs.filter fun e => match e with | WEv.accept _ => true | _ => false).length

-- ==================================== Frame reader (read.rs) ================================ --

/-- Outcome of one `poll_peek` or `poll_read` call on the input stream.
`peekOk b0 b1` delivers the 2 peeked header bytes without consuming them;
`peekShort n` is a peek returning `n ≠ 2` bytes (the source aborts on it);
`readOk data` destructively delivers `data` (capped by the requested
slice). -/
inductive REv
  | peekOk (b0 b1 : Nat)
  | peekShort (n : Nat)
  | peekPending
  | peekErr
  | readOk (data : List Nat)
  | readPending
  | readErr
deriving DecidableEq, Repr

/-- ReadInner from src/read.rs, with input handle and Noise state
abstracted. -/
inductive RIn
  | empty
  | peek (msg buf : List Nat)
  | advance (len off : Nat) (msg buf : List Nat)
  | read (len off : Nat) (msg buf : List Nat)
  | done (len : Nat) (msg buf : List Nat)
deriving DecidableEq, Repr

/-- Final configuration of a frame-reader run: result, machine state,
unconsumed stream events, and the number of bytes destructively consumed
from the input stream (peeks consume nothing). -/
structure ROut where
  res : MRes
  st : RIn
  evs : List REv
  consumed : Nat
deriving DecidableEq, Repr

/-- Final decrypt step of Read::poll (src/read.rs, `Read` arm with
`off >= len`): `read_message(&buf[..len], msg)` writes the plaintext into
`msg` and yields its length, failing with a Noise error on authentication
failure or when the plaintext exceeds the `msg` buffer. -/
def readFinish (decr : List Nat → Option (List Nat)) (len : Nat) (msg buf : List Nat)
    (evs : List REv) (c : Nat) : ROut :=
  match decr (buf.take len) with
  | some p =>
    if p.length ≤ msg.length then
      ⟨.ready (.ok p.length), .done p.length (storeAt msg 0 p) buf, evs, c⟩
    else ⟨.ready (.error .noise), .done 0 msg buf, evs, c⟩
  | none => ⟨.ready (.error .noise), .done 0 msg buf, evs, c⟩

/-- Read::poll from src/read.rs, driven to completion. `decr` is the Noise
`read_message` plaintext for a ciphertext (modelled from the spec: external
Noise engine; `none` is an authentication/decryption failure, and a
plaintext larger than the `msg` buffer also fails). The `advance` arm
mirrors the source's guard order: the `RAW_MAX_LEN` check, then the guard
computing `len - NOISE_OVERHEAD` — a `usize` subtraction that underflows
when `len < NOISE_OVERHEAD`, modelled as `crashed` — then the scratch-buffer
growth, the 2-byte header consumption, and the body read. -/
def runRead (decr : List Nat → Option (List Nat)) : Nat → RIn → List REv → Nat → ROut
  | 0, st, evs, c => ⟨.stalled, st, evs, c⟩
  | fuel + 1, st, evs, c =>
    match st with
    | .empty => ⟨.crashed, .empty, evs, c⟩
    | .peek msg buf =>
      if buf.length < 2 then ⟨.crashed, .peek msg buf, evs, c⟩
      else
        match evs with
        | [] => ⟨.stalled, .peek msg buf, [], c⟩
        | .peekOk b0 b1 :: evs' =>
          runRead decr fuel (.advance (u16OfLe b0 b1) 0 msg (storeAt buf 0 [b0, b1])) evs' c
        | .peekShort _ :: evs' => ⟨.crashed, .peek msg buf, evs', c⟩
        | .peekPending :: evs' => runRead decr fuel (.peek msg buf) evs' c
        | .peekErr :: evs' => ⟨.ready (.error .ioErr), .done 0 msg buf, evs', c⟩
        | .readOk _ :: evs' => ⟨.crashed, .peek msg buf, evs', c⟩
        | .readPending :: evs' => ⟨.crashed, .peek msg buf, evs', c⟩
        | .readErr :: evs' => ⟨.crashed, .peek msg buf, evs', c⟩
    | .advance len off msg buf =>
      if len > RAW_MAX_LEN then
        ⟨.ready (.error (.messageSize RAW_MAX_LEN len)), .done 0 msg buf, evs, c⟩
      else if len < NOISE_OVERHEAD then ⟨.crashed, .advance len off msg buf, evs, c⟩
      else if len - NOISE_OVERHEAD > msg.length then
        runRead decr fuel (.advance len off (vecResize msg (len - NOISE_OVERHEAD)) buf) evs c
      else if len > buf.length then
        runRead decr fuel (.advance len off msg (vecResize buf len)) evs c
      else if off ≥ 2 then runRead decr fuel (.read len 0 msg buf) evs c
      else
        match evs with
        | [] => ⟨.stalled, .advance len off msg buf, [], c⟩
        | .readOk data :: evs' =>
          let wrote := min data.length (2 - off)
          runRead decr fuel (.advance len (off + wrote) msg (storeAt buf off (data.take wrote)))
            evs' (c + wrote)
        | .readPending :: evs' => runRead decr fuel (.advance len off msg buf) evs' c
        | .readErr :: evs' => ⟨.ready (.error .ioErr), .done 0 msg buf, evs', c⟩
        | .peekOk _ _ :: evs' => ⟨.crashed, .advance len off msg buf, evs', c⟩
        | .peekShort _ :: evs' => ⟨.crashed, .advance len off msg buf, evs', c⟩
        | .peekPending :: evs' => ⟨.crashed, .advance len off msg buf, evs', c⟩
        | .peekErr :: evs' => ⟨.crashed, .advance len off msg buf, evs', c⟩
    | .read len off msg buf =>
      if off ≥ len then readFinish decr len msg buf evs c
      else
        match evs with
        | [] => ⟨.stalled, .read len off msg buf, [], c⟩
        | .readOk data :: evs' =>
          let wrote := min data.length (len - off)
          runRead decr fuel (.read len (off + wrote) msg (storeAt buf off (data.take wrote)))
            evs' (c + wrote)
        | .readPending :: evs' => runRead decr fuel (.read len off msg buf) evs' c
        | .readErr :: evs' => ⟨.ready (.error .ioErr), .done 0 msg buf, evs', c⟩
        | .peekOk _ _ :: evs' => ⟨.crashed, .read len off msg buf, evs', c⟩
        | .peekShort _ :: evs' => ⟨.crashed, .read len off msg buf, evs', c⟩
        | .peekPending :: evs' => ⟨.crashed, .read len off msg buf, evs', c⟩
        | .peekErr :: evs' => ⟨.crashed, .read len off msg buf, evs', c⟩
    | .done len msg buf => ⟨.ready (.ok len), .done len msg buf, evs, c⟩

-- ================================ Handshake engines (initiate.rs, respond.rs) =============== --

/-- Observable actions of the handshake engines: building the Noise state,
polling the frame-writer sub-future (which performs the underlying writes),
polling flush, polling the frame-reader sub-future, and the one-way
conversion of the completed handshake state into transport state. -/
inductive HLbl
  | build
  | pollWrite
  | pollFlush
  | pollRead
  | convert
deriving DecidableEq, Repr

/-- InitiateInner from src/initiate.rs (`State`, `Write`, `Flush`, `Read`,
`Done`), extended with `transport` for the state after the one-way
handshake-to-transport conversion. -/
inductive IState
  | state
  | write
  | flush
  | read
  | done
  | transport
deriving DecidableEq, Repr

/-- Transitions of Initiate::poll (src/initiate.rs): `State` builds the
initiator and moves to `Write`; polling the `Write` sub-future either stays
(pending) or moves to `Flush`; polling flush either stays or moves to
`Read`; polling the `Read` sub-future either stays or completes; the
completed handshake is converted to transport state exactly once. -/
inductive IStep : IState → HLbl → IState → Prop
  | build : IStep .state .build .write
  | writePending : IStep .write .pollWrite .write
  | writeReady : IStep .write .pollWrite .flush
  | flushPending : IStep .flush .pollFlush .flush
  | flushReady : IStep .flush .pollFlush .read
  | readPending : IStep .read .pollRead .read
  | readReady : IStep .read .pollRead .done
  | intoTransport : IStep .done .convert .transport

/-- RespondInner from src/respond.rs (`State`, `Read`, `Write`, `Flush`,
`Done`), extended with `transport` as for the initiator. -/
inductive RState
  | state
  | read
  | write
  | flush
  | done
  | transport
deriving DecidableEq, Repr

/-- Transitions of Respond::poll (src/respond.rs): `State` builds the
responder and moves to `Read`; then `Read`, `Write`, `Flush` in order, each
polled until ready; then the one-way conversion. -/
inductive RStep : RState → HLbl → RState → Prop
  | build : RStep .state .build .read
  | readPending : RStep .read .pollRead .read
  | readReady : RStep .read .pollRead .write
  | writePending : RStep .write .pollWrite .write
  | writeReady : RStep .write .pollWrite .flush
  | flushPending : RStep .flush .pollFlush .flush
  | flushReady : RStep .flush .pollFlush .done
  | intoTransport : RStep .done .convert .transport

/-- Labelled reflexive-transitive closure of a step relation: a run of the
machine recording the sequence of actions. -/
inductive Chain {σ : Type} (Step : σ → HLbl → σ → Prop) : σ → List HLbl → σ → Prop
  | nil (s : σ) : Chain Step s [] s
  | cons {s s' t : σ} {l : HLbl} {tr : List HLbl} :
      Step s l s' → Chain Step s' tr t → Chain Step s (l :: tr) t

/-- Phase number of an initiator state, in source order. -/
def iphase : IState → Nat
  | .state => 0
  | .write => 1
  | .flush => 2
  | .read => 3
  | .done => 4
  | .transport => 5

/-- Phase number of a responder state, in source order. -/
def rphase : RState → Nat
  | .state => 0
  | .read => 1
  | .write => 2
  | .flush => 3
  | .done => 4
  | .transport => 5

-- ========================================= Theorems ========================================= --

theorem okBind {α β : Type} (a : α) (f : α → Except Err β) :
    (Except.ok a >>= f) = f a := rfl

theorem encodeSlice00 (buf : List Nat) (h : 2 ≤ buf.length) :
    encodeSlice [0, 0] buf = .ok (2, 0 :: 0 :: buf.drop 2) := by
  unfold encodeSlice
  rw [if_neg (by simp; omega)]
  rfl

theorem pidEncode_eq (pid : PacketId) (buf : List Nat) (h : 2 ≤ buf.length) :
    PacketId.encode pid buf = .ok (2, u16le pid.toU16 ++ buf.drop 2) := by
  unfold PacketId.encode
  rw [if_neg (by omega)]

theorem pkEncode_eq (k : PublicKey) (buf : List Nat) (h : 32 ≤ buf.length) :
    PublicKey.encode k buf = .ok (32, k.bytes ++ buf.drop 32) := by
  unfold PublicKey.encode
  rw [if_neg (by omega)]

theorem hashEncode_eq (x : Hash) (buf : List Nat) (h : 32 ≤ buf.length) :
    Hash.encode x buf = .ok (32, x.bytes ++ buf.drop 32) := by
  unfold Hash.encode
  rw [if_neg (by omega)]

theorem sigEncode_eq (x : Signature) (buf : List Nat) (h : 64 ≤ buf.length) :
    Signature.encode x buf = .ok (64, x.bytes ++ buf.drop 64) := by
  unfold Signature.encode
  rw [if_neg (by omega)]

theorem rootEncode_eq (r : Root) (buf : List Nat)
    (hh : r.hash.bytes.length = 32) (_hs : r.sig.bytes.length = 64) (h : 96 ≤ buf.length) :
    Root.encode r buf = .ok (96, r.hash.bytes ++ r.sig.bytes ++ buf.drop 96) := by
  unfold Root.encode
  rw [hashEncode_eq _ _ (by omega), okBind]
  dsimp only
  rw [List.drop_left' hh, sigEncode_eq _ _ (by simp; omega), okBind]
  dsimp only
  rw [List.take_left' hh, List.drop_drop]
  norm_num [List.append_assoc]

theorem heartbeatEncode_eq (p : Heartbeat) (buf : List Nat) (h : 4 ≤ buf.length) :
    Heartbeat.encode p buf = .ok (4, 0 :: 0 :: 0 :: 0 :: buf.drop 4) := by
  unfold Heartbeat.encode
  rw [pidEncode_eq _ _ (by omega), okBind]
  dsimp only
  rw [show (u16le PacketId.heartbeat.toU16 ++ buf.drop 2).drop 2 = buf.drop 2 by
    simp [u16le, PacketId.toU16]]
  rw [encodeSlice00 _ (by simp; omega), okBind]
  dsimp only
  simp [u16le, PacketId.toU16, List.drop_drop]

theorem helloEncode_eq (p : Hello) (buf : List Nat)
    (hid : p.id.bytes.length = 32) (hhash : p.root.hash.bytes.length = 32)
    (hsig : p.root.sig.bytes.length = 64) (h : 132 ≤ buf.length) :
    Hello.encode p buf =
      .ok (132, 1 :: 0 :: 0 :: 0 ::
        (p.id.bytes ++ p.root.hash.bytes ++ p.root.sig.bytes ++ buf.drop 132)) := by
  unfold Hello.encode
  rw [pidEncode_eq _ _ (by omega), okBind]
  dsimp only
  rw [show (u16le PacketId.hello.toU16 ++ buf.drop 2).drop 2 = buf.drop 2 by
    simp [u16le, PacketId.toU16]]
  rw [encodeSlice00 _ (by simp; omega), okBind]
  dsimp only
  rw [show (u16le PacketId.hello.toU16 ++ buf.drop 2).take 2 ++
      (0 :: 0 :: (buf.drop 2).drop 2) = 1 :: 0 :: 0 :: 0 :: buf.drop 4 by
    simp [u16le, PacketId.toU16, List.drop_drop]]
  rw [show (1 :: 0 :: 0 :: 0 :: buf.drop 4).drop (2 + 2) = buf.drop 4 from rfl]
  rw [pkEncode_eq _ _ (by simp; omega), okBind]
  dsimp only
  rw [show (1 :: 0 :: 0 :: 0 :: buf.drop 4).take (2 + 2) ++
      (p.id.bytes ++ (buf.drop 4).drop 32) =
      1 :: 0 :: 0 :: 0 :: (p.id.bytes ++ buf.drop 36) by
    simp [List.drop_drop]]
  rw [show (1 :: 0 :: 0 :: 0 :: (p.id.bytes ++ buf.drop 36)).drop (2 + 2 + 32) =
      (p.id.bytes ++ buf.drop 36).drop 32 from rfl]
  rw [List.drop_left' hid]
  rw [rootEncode_eq _ _ hhash hsig (by simp; omega), okBind]
  dsimp only
  rw [show (1 :: 0 :: 0 :: 0 :: (p.id.bytes ++ buf.drop 36)).take (2 + 2 + 32) =
      1 :: 0 :: 0 :: 0 :: (p.id.bytes ++ buf.drop 36).take 32 from rfl]
  rw [List.take_left' hid, List.drop_drop]
  norm_num [List.append_assoc]

theorem pidDecode_cons (b0 b1 : Nat) (rest : List Nat) :
    PacketId.decode (b0 :: b1 :: rest) =
      (PacketId.tryFrom (u16OfLe b0 b1) >>= fun pid => .ok (pid, 2)) := by
  unfold PacketId.decode
  rw [if_neg (by simp)]
  rfl

theorem decodeBytes_eq (n : Nat) (buf : List Nat) (h : n ≤ buf.length) :
    decodeBytes n buf = .ok (buf.take n, n) := by
  unfold decodeBytes
  rw [if_neg (by omega)]

theorem heartbeatDecode_eq (rest : List Nat) :
    Heartbeat.decode (0 :: 0 :: 0 :: 0 :: rest) = .ok (.mk, 4) := by
  unfold Heartbeat.decode
  rw [pidDecode_cons]
  rw [show PacketId.tryFrom (u16OfLe 0 0) = .ok .heartbeat from rfl, okBind, okBind]
  dsimp only
  rw [if_neg (by simp)]
  rw [show (0 :: 0 :: 0 :: 0 :: rest).drop 2 = 0 :: 0 :: rest from rfl]
  rw [decodeBytes_eq _ _ (by simp), okBind]
  rfl

theorem pkDecode_eq (buf : List Nat) (h : 32 ≤ buf.length) :
    PublicKey.decode buf = .ok (⟨buf.take 32⟩, 32) := by
  unfold PublicKey.decode
  rw [if_neg (by omega)]
  rfl

theorem hashDecode_eq (buf : List Nat) (h : 32 ≤ buf.length) :
    Hash.decode buf = .ok (⟨buf.take 32⟩, 32) := by
  unfold Hash.decode
  rw [if_neg (by omega)]

theorem sigDecode_eq (buf : List Nat) (h : 64 ≤ buf.length) :
    Signature.decode buf = .ok (⟨buf.take 64⟩, 64) := by
  unfold Signature.decode
  rw [if_neg (by omega)]
  rfl

theorem rootDecode_eq (hash sig rest : List Nat)
    (hhash : hash.length = 32) (hsig : sig.length = 64) :
    Root.decode (hash ++ sig ++ rest) = .ok (⟨⟨hash⟩, ⟨sig⟩⟩, 96) := by
  unfold Root.decode
  rw [hashDecode_eq _ (by simp; omega), okBind]
  dsimp only
  rw [show (hash ++ sig ++ rest).take 32 = hash by
    rw [List.append_assoc, List.take_left' hhash]]
  rw [show (hash ++ sig ++ rest).drop 32 = sig ++ rest by
    rw [List.append_assoc, List.drop_left' hhash]]
  rw [sigDecode_eq _ (by simp; omega), okBind]
  dsimp only
  rw [List.take_left' hsig]

theorem helloDecode_eq (id hash sig rest : List Nat)
    (hid : id.length = 32) (hhash : hash.length = 32) (hsig : sig.length = 64) :
    Hello.decode (1 :: 0 :: 0 :: 0 :: (id ++ hash ++ sig ++ rest)) =
      .ok (⟨⟨id⟩, ⟨⟨hash⟩, ⟨sig⟩⟩⟩, 132) := by
  unfold Hello.decode
  rw [pidDecode_cons]
  rw [show PacketId.tryFrom (u16OfLe 1 0) = .ok .hello from rfl, okBind, okBind]
  dsimp only
  rw [if_neg (by simp)]
  rw [show (1 :: 0 :: 0 :: 0 :: (id ++ hash ++ sig ++ rest)).drop 2 =
      0 :: 0 :: (id ++ hash ++ sig ++ rest) from rfl]
  rw [decodeBytes_eq _ _ (by simp), okBind]
  dsimp only
  rw [show (1 :: 0 :: 0 :: 0 :: (id ++ hash ++ sig ++ rest)).drop (2 + 2) =
      id ++ hash ++ sig ++ rest from rfl]
  rw [pkDecode_eq _ (by simp; omega), okBind]
  dsimp only
  rw [show (id ++ hash ++ sig ++ rest).take 32 = id by
    rw [List.append_assoc, List.append_assoc, List.take_left' hid]]
  rw [show (1 :: 0 :: 0 :: 0 :: (id ++ hash ++ sig ++ rest)).drop (2 + 2 + 32) =
      (id ++ hash ++ sig ++ rest).drop 32 from rfl]
  rw [show (id ++ hash ++ sig ++ rest).drop 32 = hash ++ sig ++ rest by
    rw [List.append_assoc, List.append_assoc, List.drop_left' hid, List.append_assoc]]
  rw [rootDecode_eq _ _ _ hhash hsig, okBind]
  rfl

/-- C1: encoding a `Heartbeat` or a `Hello` (any valid public key, hash and
signature bytes) into a sufficiently large buffer and decoding the resulting
buffer returns the same packet with a consumed count equal to the bytes
encode wrote (4 for `Heartbeat`, 132 for `Hello`). -/
theorem encode_decode_roundtrip (hb : Heartbeat) (p : Hello) (buf1 buf2 : List Nat)
    (hid : p.id.bytes.length = 32) (hhash : p.root.hash.bytes.length = 32)
    (hsig : p.root.sig.bytes.length = 64)
    (h1 : 4 ≤ buf1.length) (h2 : 132 ≤ buf2.length) :
    (∃ out, Heartbeat.encode hb buf1 = .ok (4, out) ∧
      Heartbeat.decode out = .ok (hb, 4)) ∧
    (∃ out, Hello.encode p buf2 = .ok (132, out) ∧
      Hello.decode out = .ok (p, 132)) := by
  constructor
  · refine ⟨0 :: 0 :: 0 :: 0 :: buf1.drop 4, heartbeatEncode_eq hb buf1 h1, ?_⟩
    cases hb
    exact heartbeatDecode_eq _
  · refine ⟨1 :: 0 :: 0 :: 0 ::
      (p.id.bytes ++ p.root.hash.bytes ++ p.root.sig.bytes ++ buf2.drop 132),
      helloEncode_eq p buf2 hid hhash hsig h2, ?_⟩
    rw [helloDecode_eq _ _ _ _ hid hhash hsig]

/-- C1 witness: the round trip evaluated at a concrete `Hello` and concrete
buffers. -/
theorem encode_decode_roundtrip_witness :
    (∃ out, Heartbeat.encode .mk (List.replicate 4 9) = .ok (4, out) ∧
      Heartbeat.decode out = .ok (.mk, 4)) ∧
    (∃ out,
      Hello.encode ⟨⟨List.replicate 32 5⟩, ⟨⟨List.replicate 32 6⟩, ⟨List.replicate 64 7⟩⟩⟩
        (List.replicate 132 9) = .ok (132, out) ∧
      Hello.decode out =
        .ok (⟨⟨List.replicate 32 5⟩, ⟨⟨List.replicate 32 6⟩, ⟨List.replicate 64 7⟩⟩⟩, 132)) :=
  encode_decode_roundtrip .mk
    ⟨⟨List.replicate 32 5⟩, ⟨⟨List.replicate 32 6⟩, ⟨List.replicate 64 7⟩⟩⟩
    (List.replicate 4 9) (List.replicate 132 9)
    (by simp) (by simp) (by simp) (by simp) (by simp)

/-- C2 (evaluation of the code at the failing input): with a decrypted frame
of 6 pending bytes holding an encoded `Heartbeat` (bytes 0..4) followed by a
`Hello` packet id (bytes 4..6), `try_recv` succeeds consuming 4 bytes and
leaves `next = 2`; but the subsequent `peek_packet_id` decodes `msg[0..2]` —
the front of the already-consumed `Heartbeat`, yielding the `Heartbeat` id —
although the actual unconsumed tail `msg[4..6]` holds the `Hello` id: the
cursor `next -= bytes` keeps the front of the frame, not the tail. -/
theorem tryRecv_stale_cursor_bug :
    Protocol.tryRecv PacketId.heartbeat Heartbeat.decode ⟨[0, 0, 0, 0, 1, 0], 6⟩
        (.error .ioErr) = (⟨[0, 0, 0, 0, 1, 0], 2⟩, .ok .mk) ∧
    Protocol.peekPacketId ⟨[0, 0, 0, 0, 1, 0], 2⟩ (.error .ioErr) =
        (⟨[0, 0, 0, 0, 1, 0], 2⟩, .ok .heartbeat) ∧
    PacketId.decode ([0, 0, 0, 0, 1, 0].drop 4) = .ok (.hello, 2) := by
  refine ⟨?_, ?_, ?_⟩ <;> rfl

theorem vecResize_length (b : List Nat) (n : Nat) : (vecResize b n).length = n := by
  unfold vecResize
  split <;> simp <;> omega

theorem storeAt_length (buf data : List Nat) (off : Nat)
    (h : off + data.length ≤ buf.length) : (storeAt buf off data).length = buf.length := by
  unfold storeAt
  simp
  omega

-- single-step equations of the frame-writer machine

theorem rw_fuel0 (enc : List Nat → List Nat) (st : WIn) (evs : List WEv) (out : List Nat)
    (n : Nat) : runWrite enc 0 st evs out n = ⟨.stalled, st, evs, out, n⟩ := by
  rw [runWrite.eq_def]

theorem rw_prepare_oversize (enc : List Nat → List Nat) (f : Nat) (msg buf : List Nat)
    (evs : List WEv) (out : List Nat) (n : Nat) (h : msg.length > MSG_MAX_LEN) :
    runWrite enc (f + 1) (.prepare msg buf) evs out n =
      ⟨.ready (.error (.messageSize MSG_MAX_LEN msg.length)), .done 0 msg buf, evs, out, n⟩ := by
  rw [runWrite.eq_def]
  dsimp only
  rw [if_pos h]

theorem rw_prepare_grow (enc : List Nat → List Nat) (f : Nat) (msg buf : List Nat)
    (evs : List WEv) (out : List Nat) (n : Nat) (h1 : ¬ msg.length > MSG_MAX_LEN)
    (h2 : msg.length + MSG_OVERHEAD > buf.length) :
    runWrite enc (f + 1) (.prepare msg buf) evs out n =
      runWrite enc f (.prepare msg (vecResize buf (msg.length + MSG_OVERHEAD))) evs out n := by
  rw [runWrite.eq_def]
  dsimp only
  rw [if_neg h1, if_pos h2]

theorem rw_prepare_encrypt (enc : List Nat → List Nat) (f : Nat) (msg buf : List Nat)
    (evs : List WEv) (out : List Nat) (n : Nat) (h1 : ¬ msg.length > MSG_MAX_LEN)
    (h2 : ¬ msg.length + MSG_OVERHEAD > buf.length)
    (h3 : (enc msg).length ≤ buf.length - 2) :
    runWrite enc (f + 1) (.prepare msg buf) evs out n =
      runWrite enc f
        (.write ((enc msg).length + 2) 0 msg
          (u16le (enc msg).length ++ enc msg ++ buf.drop (2 + (enc msg).length)))
        evs out (n + 1) := by
  rw [runWrite.eq_def]
  dsimp only
  rw [if_neg h1, if_neg h2, if_pos h3]

theorem rw_write_done (enc : List Nat → List Nat) (f len offset : Nat) (msg buf : List Nat)
    (evs : List WEv) (out : List Nat) (n : Nat) (h : offset ≥ len) :
    runWrite enc (f + 1) (.write len offset msg buf) evs out n =
      ⟨.ready (.ok len), .done len msg buf, evs, out, n⟩ := by
  rw [runWrite.eq_def]
  dsimp only
  rw [if_pos h]

theorem rw_write_stall (enc : List Nat → List Nat) (f len offset : Nat) (msg buf : List Nat)
    (out : List Nat) (n : Nat) (h : ¬ offset ≥ len) :
    runWrite enc (f + 1) (.write len offset msg buf) [] out n =
      ⟨.stalled, .write len offset msg buf, [], out, n⟩ := by
  rw [runWrite.eq_def]
  dsimp only
  rw [if_neg h]

theorem rw_write_accept (enc : List Nat → List Nat) (f len offset k : Nat)
    (msg buf : List Nat) (evs : List WEv) (out : List Nat) (n : Nat) (h : ¬ offset ≥ len) :
    runWrite enc (f + 1) (.write len offset msg buf) (.accept k :: evs) out n =
      runWrite enc f (.write len (offset + min k (len - offset)) msg buf) evs
        (out ++ (buf.drop offset).take (min k (len - offset))) n := by
  rw [runWrite.eq_def]
  dsimp only
  rw [if_neg h]

theorem rw_write_pending (enc : List Nat → List Nat) (f len offset : Nat)
    (msg buf : List Nat) (evs : List WEv) (out : List Nat) (n : Nat) (h : ¬ offset ≥ len) :
    runWrite enc (f + 1) (.write len offset msg buf) (.pending :: evs) out n =
      runWrite enc f (.write len offset msg buf) evs out n := by
  rw [runWrite.eq_def]
  dsimp only
  rw [if_neg h]

-- single-step equations of the frame-reader machine

theorem rr_peekOk (d : List Nat → Option (List Nat)) (f : Nat) (msg buf : List Nat)
    (b0 b1 : Nat) (evs : List REv) (c : Nat) (h : ¬ buf.length < 2) :
    runRead d (f + 1) (.peek msg buf) (.peekOk b0 b1 :: evs) c =
      runRead d f (.advance (u16OfLe b0 b1) 0 msg (storeAt buf 0 [b0, b1])) evs c := by
  rw [runRead.eq_def]
  dsimp only
  rw [if_neg h]

theorem rr_adv_toobig (d : List Nat → Option (List Nat)) (f len off : Nat)
    (msg buf : List Nat) (evs : List REv) (c : Nat) (h : len > RAW_MAX_LEN) :
    runRead d (f + 1) (.advance len off msg buf) evs c =
      ⟨.ready (.error (.messageSize RAW_MAX_LEN len)), .done 0 msg buf, evs, c⟩ := by
  rw [runRead.eq_def]
  dsimp only
  rw [if_pos h]

theorem rr_adv_underflow (d : List Nat → Option (List Nat)) (f len off : Nat)
    (msg buf : List Nat) (evs : List REv) (c : Nat) (h1 : ¬ len > RAW_MAX_LEN)
    (h2 : len < NOISE_OVERHEAD) :
    runRead d (f + 1) (.advance len off msg buf) evs c =
      ⟨.crashed, .advance len off msg buf, evs, c⟩ := by
  rw [runRead.eq_def]
  dsimp only
  rw [if_neg h1, if_pos h2]

theorem rr_adv_growmsg (d : List Nat → Option (List Nat)) (f len off : Nat)
    (msg buf : List Nat) (evs : List REv) (c : Nat) (h1 : ¬ len > RAW_MAX_LEN)
    (h2 : ¬ len < NOISE_OVERHEAD) (h3 : len - NOISE_OVERHEAD > msg.length) :
    runRead d (f + 1) (.advance len off msg buf) evs c =
      runRead d f (.advance len off (vecResize msg (len - NOISE_OVERHEAD)) buf) evs c := by
  rw [runRead.eq_def]
  dsimp only
  rw [if_neg h1, if_neg h2, if_pos h3]

theorem rr_adv_growbuf (d : List Nat → Option (List Nat)) (f len off : Nat)
    (msg buf : List Nat) (evs : List REv) (c : Nat) (h1 : ¬ len > RAW_MAX_LEN)
    (h2 : ¬ len < NOISE_OVERHEAD) (h3 : ¬ len - NOISE_OVERHEAD > msg.length)
    (h4 : len > buf.length) :
    runRead d (f + 1) (.advance len off msg buf) evs c =
      runRead d f (.advance len off msg (vecResize buf len)) evs c := by
  rw [runRead.eq_def]
  dsimp only
  rw [if_neg h1, if_neg h2, if_neg h3, if_pos h4]

theorem rr_adv_stall (d : List Nat → Option (List Nat)) (f len off : Nat)
    (msg buf : List Nat) (c : Nat) (h1 : ¬ len > RAW_MAX_LEN)
    (h2 : ¬ len < NOISE_OVERHEAD) (h3 : ¬ len - NOISE_OVERHEAD > msg.length)
    (h4 : ¬ len > buf.length) (h5 : ¬ off ≥ 2) :
    runRead d (f + 1) (.advance len off msg buf) [] c =
      ⟨.stalled, .advance len off msg buf, [], c⟩ := by
  rw [runRead.eq_def]
  dsimp only
  rw [if_neg h1, if_neg h2, if_neg h3, if_neg h4, if_neg h5]

/-- C3: a payload longer than `MSG_MAX_LEN` is rejected by the frame writer
with a size error on the first loop iteration: no stream event is consumed,
no byte is emitted, and the Noise state performs no encryption. -/
theorem write_oversized_rejected_early (enc : List Nat → List Nat) (msg buf : List Nat)
    (evs : List WEv) (fuel : Nat) (h : MSG_MAX_LEN < msg.length) :
    runWrite enc (fuel + 1) (.prepare msg buf) evs [] 0 =
      ⟨.ready (.error (.messageSize MSG_MAX_LEN msg.length)), .done 0 msg buf, evs, [], 0⟩ :=
  rw_prepare_oversize enc fuel msg buf evs [] 0 h

/-- C3 witness: a 65518-byte payload is rejected with the size error and the
output receives nothing. -/
theorem write_oversized_rejected_early_witness :
    runWrite (fun l => l) (0 + 1) (.prepare (List.replicate 65518 0) []) [] [] 0 =
      ⟨.ready (.error (.messageSize MSG_MAX_LEN (List.replicate 65518 0).length)),
        .done 0 (List.replicate 65518 0) [], [], [], 0⟩ :=
  write_oversized_rejected_early (fun l => l) (List.replicate 65518 0) [] [] 0
    (by rw [List.length_replicate]; norm_num [MSG_MAX_LEN, RAW_MAX_LEN, NOISE_MAX_LEN,
      NOISE_OVERHEAD])

/-- C4: a frame whose 2-byte little-endian length prefix declares
`L > RAW_MAX_LEN` makes the frame reader fail with the invalid-size error
right after the non-destructive peek: no byte is destructively consumed from
the stream and no further stream event is touched. -/
theorem read_oversized_frame_rejected (decr : List Nat → Option (List Nat))
    (msg buf : List Nat) (rest : List REv) (b0 b1 fuel : Nat)
    (hb : 2 ≤ buf.length) (hl : RAW_MAX_LEN < u16OfLe b0 b1) :
    runRead decr (fuel + 2) (.peek msg buf) (.peekOk b0 b1 :: rest) 0 =
      ⟨.ready (.error (.messageSize RAW_MAX_LEN (u16OfLe b0 b1))), .done 0 msg
        (storeAt buf 0 [b0, b1]), rest, 0⟩ := by
  rw [show fuel + 2 = (fuel + 1) + 1 from rfl,
    rr_peekOk decr (fuel + 1) msg buf b0 b1 rest 0 (by omega),
    rr_adv_toobig decr fuel (u16OfLe b0 b1) 0 msg (storeAt buf 0 [b0, b1]) rest 0 hl]

/-- C4 witness: a declared length of 65534 (bytes 254, 255) is rejected with
the invalid-size error and zero consumed bytes. -/
theorem read_oversized_frame_rejected_witness :
    runRead (fun _ => none) (0 + 2) (.peek [] (List.replicate 72 3)) [.peekOk 254 255] 0 =
      ⟨.ready (.error (.messageSize RAW_MAX_LEN (u16OfLe 254 255))), .done 0 []
        (storeAt (List.replicate 72 3) 0 [254, 255]), [], 0⟩ :=
  read_oversized_frame_rejected (fun _ => none) [] (List.replicate 72 3) [] 254 255 0
    (by simp) (by decide)

/-- C10 counterexample: a declared frame length of 0 — which satisfies
`L ≤ RAW_MAX_LEN` and `L < 16` — drives the frame reader's `Advance` guard
into the `usize` subtraction `len - NOISE_OVERHEAD`, which underflows: the
machine crashes instead of rejecting the frame with a typed error. -/
theorem read_len_underflow_counterexample :
    (runRead (fun _ => none) 8 (.peek [] (List.replicate 72 0)) [.peekOk 0 0] 0).res =
      .crashed := by
  rfl

/-- C10 amended: for every declared length `L` with
`NOISE_OVERHEAD ≤ L ≤ RAW_MAX_LEN` the plaintext-capacity validation is
computed without underflow: after the peek the reader neither crashes nor
consumes stream bytes, and suspends in `Advance` awaiting the destructive
header read. -/
theorem read_advance_no_underflow (decr : List Nat → Option (List Nat))
    (msg buf : List Nat) (b0 b1 : Nat) (hb : 2 ≤ buf.length)
    (hlo : NOISE_OVERHEAD ≤ u16OfLe b0 b1) (hhi : u16OfLe b0 b1 ≤ RAW_MAX_LEN) :
    ∃ msg' buf', runRead decr 6 (.peek msg buf) [.peekOk b0 b1] 0 =
      ⟨.stalled, .advance (u16OfLe b0 b1) 0 msg' buf', [], 0⟩ := by
  have h1 : ¬ buf.length < 2 := by omega
  have h2 : ¬ u16OfLe b0 b1 > RAW_MAX_LEN := by omega
  have h3 : ¬ u16OfLe b0 b1 < NOISE_OVERHEAD := by omega
  rw [show (6 : Nat) = 5 + 1 from rfl, rr_peekOk decr 5 msg buf b0 b1 [] 0 h1]
  by_cases hm : u16OfLe b0 b1 - NOISE_OVERHEAD > msg.length
  · rw [show (5 : Nat) = 4 + 1 from rfl,
      rr_adv_growmsg decr 4 (u16OfLe b0 b1) 0 msg (storeAt buf 0 [b0, b1]) [] 0 h2 h3 hm]
    have hm2 : ¬ u16OfLe b0 b1 - NOISE_OVERHEAD >
        (vecResize msg (u16OfLe b0 b1 - NOISE_OVERHEAD)).length := by
      rw [vecResize_length]; omega
    by_cases hbuf : u16OfLe b0 b1 > (storeAt buf 0 [b0, b1]).length
    · rw [show (4 : Nat) = 3 + 1 from rfl,
        rr_adv_growbuf decr 3 (u16OfLe b0 b1) 0 _ (storeAt buf 0 [b0, b1]) [] 0 h2 h3 hm2 hbuf]
      have hbuf2 : ¬ u16OfLe b0 b1 > (vecResize (storeAt buf 0 [b0, b1]) (u16OfLe b0 b1)).length := by
        rw [vecResize_length]; omega
      rw [show (3 : Nat) = 2 + 1 from rfl,
        rr_adv_stall decr 2 (u16OfLe b0 b1) 0 _ _ 0 h2 h3 hm2 hbuf2 (by omega)]
      exact ⟨_, _, rfl⟩
    · rw [show (4 : Nat) = 3 + 1 from rfl,
        rr_adv_stall decr 3 (u16OfLe b0 b1) 0 _ _ 0 h2 h3 hm2 hbuf (by omega)]
      exact ⟨_, _, rfl⟩
  · by_cases hbuf : u16OfLe b0 b1 > (storeAt buf 0 [b0, b1]).length
    · rw [show (5 : Nat) = 4 + 1 from rfl,
        rr_adv_growbuf decr 4 (u16OfLe b0 b1) 0 msg (storeAt buf 0 [b0, b1]) [] 0 h2 h3 hm hbuf]
      have hbuf2 : ¬ u16OfLe b0 b1 > (vecResize (storeAt buf 0 [b0, b1]) (u16OfLe b0 b1)).length := by
        rw [vecResize_length]; omega
      rw [show (4 : Nat) = 3 + 1 from rfl,
        rr_adv_stall decr 3 (u16OfLe b0 b1) 0 _ _ 0 h2 h3 hm hbuf2 (by omega)]
      exact ⟨_, _, rfl⟩
    · rw [show (5 : Nat) = 4 + 1 from rfl,
        rr_adv_stall decr 4 (u16OfLe b0 b1) 0 _ _ 0 h2 h3 hm hbuf (by omega)]
      exact ⟨_, _, rfl⟩

/-- C10 amended witness: a declared length of 20 passes the validation
without a crash and leaves the reader suspended awaiting the destructive
read, with zero bytes consumed. -/
theorem read_advance_no_underflow_witness :
    ∃ msg' buf', runRead (fun _ => none) 6 (.peek [] (List.replicate 72 0))
        [.peekOk 20 0] 0 = ⟨.stalled, .advance (u16OfLe 20 0) 0 msg' buf', [], 0⟩ :=
  read_advance_no_underflow (fun _ => none) [] (List.replicate 72 0) 20 0
    (by simp) (by decide) (by decide)

/-- C6: a failing packet-id decode in `peek_packet_id`, and a failing typed
decode in `try_recv` after the id matched, both reset the cursor to empty
(`next = 0`) and surface the error; and a `peek_packet_id` call on an empty
cursor performs the fresh frame read (the refill) and decodes the freshly
decrypted bytes rather than any stale ones. -/
theorem decode_failure_resets_cursor {α : Type} (expected : PacketId)
    (dec : List Nat → Except Err (α × Nat)) (p1 p2 q : Protocol)
    (r1 r2 : Except Err (List Nat × Nat)) (e1 e2 : Err) (pid : PacketId) (k : Nat)
    (m : List Nat) (n : Nat)
    (h1 : p1.next ≠ 0) (hd1 : PacketId.decode (p1.msg.take p1.next) = .error e1)
    (h2 : p2.next ≠ 0) (hd2 : PacketId.decode (p2.msg.take p2.next) = .ok (pid, k))
    (hexp : pid = expected) (hdec2 : dec (p2.msg.take p2.next) = .error e2)
    (hq : q.next = 0) :
    Protocol.peekPacketId p1 r1 = (⟨p1.msg, 0⟩, .error e1) ∧
    Protocol.tryRecv expected dec p2 r2 = (⟨p2.msg, 0⟩, .error e2) ∧
    Protocol.peekPacketId q (.ok (m, n)) =
      (match PacketId.decode (m.take n) with
       | .ok (pid2, _) => (⟨m, n⟩, .ok pid2)
       | .error e3 => (⟨m, 0⟩, .error e3)) := by
  refine ⟨?_, ?_, ?_⟩
  · unfold Protocol.peekPacketId
    rw [if_neg h1, hd1]
  · unfold Protocol.tryRecv Protocol.peekPacketId
    rw [if_neg h2, hd2]
    dsimp only
    rw [if_neg (by simp [hexp]), hdec2]
  · unfold Protocol.peekPacketId
    rw [if_pos hq]

/-- C6 witness: a short frame (1 pending byte) fails the id decode in peek
and clears the cursor; a heartbeat frame truncated after its id fails the
typed decode in `try_recv` and clears the cursor; and a peek on an empty
cursor decodes the refilled frame. -/
theorem decode_failure_resets_cursor_witness :
    Protocol.peekPacketId ⟨[9], 1⟩ (.error .ioErr) =
      (⟨[9], 0⟩, .error (.bufferSize 2 1)) ∧
    Protocol.tryRecv PacketId.heartbeat Heartbeat.decode ⟨[0, 0, 9], 3⟩ (.error .ioErr) =
      (⟨[0, 0, 9], 0⟩, .error (.bufferSize 2 1)) ∧
    Protocol.peekPacketId ⟨[], 0⟩ (.ok ([0, 0, 0, 0], 4)) =
      (match PacketId.decode ([0, 0, 0, 0].take 4) with
       | .ok (pid2, _) => (⟨[0, 0, 0, 0], 4⟩, .ok pid2)
       | .error e3 => (⟨[0, 0, 0, 0], 0⟩, .error e3)) :=
  decode_failure_resets_cursor PacketId.heartbeat Heartbeat.decode
    ⟨[9], 1⟩ ⟨[0, 0, 9], 3⟩ ⟨[], 0⟩ (.error .ioErr) (.error .ioErr)
    (.bufferSize 2 1) (.bufferSize 2 1) .heartbeat 2 [0, 0, 0, 0] 4
    (by decide) (by decide) (by decide) (by decide) rfl (by decide) rfl

/-- C7: when a pending decoded frame's leading id decodes to a tag different
from the expected packet id, `try_recv` fails with `WrongPacketId` and
leaves the protocol state — in particular the decode cursor `next` —
exactly as it was, so the pending packet can still be received as its
correct type. -/
theorem tryRecv_wrong_id_keeps_cursor {α : Type} (expected : PacketId)
    (dec : List Nat → Except Err (α × Nat)) (p : Protocol)
    (refill : Except Err (List Nat × Nat)) (pid : PacketId) (k : Nat)
    (hne : p.next ≠ 0) (hdec : PacketId.decode (p.msg.take p.next) = .ok (pid, k))
    (hmis : pid ≠ expected) :
    Protocol.tryRecv expected dec p refill = (p, .error (.wrongPacketId pid)) := by
  unfold Protocol.tryRecv Protocol.peekPacketId
  rw [if_neg hne, hdec]
  dsimp only
  rw [if_pos hmis]

/-- C7 witness: a pending `Hello` frame requested as `Heartbeat` yields
`WrongPacketId Hello` and the cursor still holds the 2 pending bytes. -/
theorem tryRecv_wrong_id_keeps_cursor_witness :
    Protocol.tryRecv PacketId.heartbeat Heartbeat.decode ⟨[1, 0], 2⟩ (.error .ioErr) =
      (⟨[1, 0], 2⟩, .error (.wrongPacketId .hello)) :=
  tryRecv_wrong_id_keeps_cursor PacketId.heartbeat Heartbeat.decode ⟨[1, 0], 2⟩
    (.error .ioErr) .hello 2 (by decide) (by decide) (by decide)

theorem naccepts_accept (k : Nat) (evs : List WEv) :
    naccepts (.accept k :: evs) = naccepts evs + 1 := by
  simp [naccepts, List.filter_cons]

theorem naccepts_pending (evs : List WEv) :
    naccepts (.pending :: evs) = naccepts evs := by
  simp [naccepts, List.filter_cons]

theorem naccepts_nil : naccepts [] = 0 := rfl

theorem runWrite_write_phase (enc : List Nat → List Nat) (msg buf : List Nat) (len n : Nat) :
    ∀ (evs : List WEv), goodSched evs →
      ∀ (fuel off : Nat), len - off ≤ naccepts evs → off ≤ len →
        evs.length + 1 ≤ fuel →
        ∃ evs', runWrite enc fuel (.write len off msg buf) evs (buf.take off) n =
          ⟨.ready (.ok len), .done len msg buf, evs', buf.take len, n⟩ := by
  intro evs
  induction evs with
  | nil =>
    intro _ fuel off hacc hoff hfuel
    obtain ⟨f, rfl⟩ : ∃ f, fuel = f + 1 := ⟨fuel - 1, by omega⟩
    have hoe : off = len := by rw [naccepts_nil] at hacc; omega
    rw [rw_write_done enc f len off msg buf [] (buf.take off) n (by omega), hoe]
    exact ⟨[], rfl⟩
  | cons e evs ih =>
    intro hg fuel off hacc hoff hfuel
    have hge := (List.forall_mem_cons).1 hg
    obtain ⟨f, rfl⟩ : ∃ f, fuel = f + 1 := ⟨fuel - 1, by omega⟩
    by_cases hdone : off ≥ len
    · rw [rw_write_done enc f len off msg buf (e :: evs) (buf.take off) n hdone,
        show off = len by omega]
      exact ⟨e :: evs, rfl⟩
    · cases e with
      | accept k =>
        have hk : 1 ≤ k := hge.1
        rw [rw_write_accept enc f len off k msg buf evs (buf.take off) n hdone,
          show buf.take off ++ (buf.drop off).take (min k (len - off)) =
            buf.take (off + min k (len - off)) from (List.take_add buf off _).symm]
        apply ih hge.2 f (off + min k (len - off))
        · rw [naccepts_accept] at hacc; omega
        · omega
        · simp only [List.length_cons] at hfuel; omega
      | pending =>
        rw [rw_write_pending enc f len off msg buf evs (buf.take off) n hdone]
        apply ih hge.2 f off
        · rw [naccepts_pending] at hacc; exact hacc
        · exact hoff
        · simp only [List.length_cons] at hfuel; omega
      | ioerr =>
        exact absurd hge.1 (by simp [WEv.good])

theorem runWrite_prepare_success (enc : List Nat → List Nat) (msg buf : List Nat)
    (evs : List WEv) (fuel : Nat)
    (hsz : msg.length ≤ MSG_MAX_LEN)
    (henc : (enc msg).length = msg.length + NOISE_OVERHEAD)
    (hg : goodSched evs) (hacc : msg.length + NOISE_OVERHEAD + 2 ≤ naccepts evs)
    (hfuel : evs.length + 3 ≤ fuel) :
    ∃ evs' bufF, runWrite enc fuel (.prepare msg buf) evs [] 0 =
      ⟨.ready (.ok (msg.length + NOISE_OVERHEAD + 2)),
        .done (msg.length + NOISE_OVERHEAD + 2) msg bufF, evs',
        u16le (msg.length + NOISE_OVERHEAD) ++ enc msg, 1⟩ ∧
      bufF.take 2 = u16le (msg.length + NOISE_OVERHEAD) ∧
      (bufF.drop 2).take (msg.length + NOISE_OVERHEAD) = enc msg ∧
      bufF.length = max buf.length (msg.length + MSG_OVERHEAD) := by
  have hmo : MSG_OVERHEAD = 18 := rfl
  have hno : NOISE_OVERHEAD = 16 := rfl
  have hover : ¬ msg.length > MSG_MAX_LEN := by omega
  have hu16 : (u16le (msg.length + NOISE_OVERHEAD)).length = 2 := by simp [u16le]
  obtain ⟨f, rfl⟩ : ∃ f, fuel = f + 1 := ⟨fuel - 1, by omega⟩
  suffices h : ∀ (buf2 : List Nat) (f2 : Nat), ¬ msg.length + MSG_OVERHEAD > buf2.length →
      evs.length + 1 ≤ f2 →
      ∃ evs' bufF, runWrite enc (f2 + 1) (.prepare msg buf2) evs [] 0 =
        ⟨.ready (.ok (msg.length + NOISE_OVERHEAD + 2)),
          .done (msg.length + NOISE_OVERHEAD + 2) msg bufF, evs',
          u16le (msg.length + NOISE_OVERHEAD) ++ enc msg, 1⟩ ∧
        bufF.take 2 = u16le (msg.length + NOISE_OVERHEAD) ∧
        (bufF.drop 2).take (msg.length + NOISE_OVERHEAD) = enc msg ∧
        bufF.length = buf2.length by
    by_cases hgrow : msg.length + MSG_OVERHEAD > buf.length
    · obtain ⟨f2, rfl⟩ : ∃ f2, f = f2 + 1 := ⟨f - 1, by omega⟩
      rw [rw_prepare_grow enc (f2 + 1) msg buf evs [] 0 hover hgrow]
      obtain ⟨evs', bufF, heq, ht, hd, hl⟩ := h (vecResize buf (msg.length + MSG_OVERHEAD)) f2
        (by rw [vecResize_length]; omega) (by omega)
      exact ⟨evs', bufF, heq, ht, hd, by rw [hl, vecResize_length]; omega⟩
    · obtain ⟨evs', bufF, heq, ht, hd, hl⟩ := h buf f hgrow (by omega)
      exact ⟨evs', bufF, heq, ht, hd, by rw [hl]; omega⟩
  intro buf2 f2 hgrow2 hf2
  have hmust : (enc msg).length ≤ buf2.length - 2 := by omega
  rw [rw_prepare_encrypt enc f2 msg buf2 evs [] 0 hover hgrow2 hmust, henc]
  simp only [Nat.zero_add]
  set c := enc msg with hc
  set bufF := u16le (msg.length + NOISE_OVERHEAD) ++ c ++
    buf2.drop (2 + (msg.length + NOISE_OVERHEAD)) with hbufF
  have hlF : bufF.length = buf2.length := by
    rw [hbufF]
    simp only [List.length_append, List.length_drop, hu16, henc]
    omega
  have hpre : (u16le (msg.length + NOISE_OVERHEAD) ++ c).length =
      msg.length + NOISE_OVERHEAD + 2 := by
    rw [List.length_append, hu16, henc]; omega
  obtain ⟨evs', heq⟩ := runWrite_write_phase enc msg bufF (msg.length + NOISE_OVERHEAD + 2) 1
    evs hg f2 0 (by omega) (by omega) hf2
  rw [List.take_zero] at heq
  refine ⟨evs', bufF, ?_, ?_, ?_, hlF⟩
  · rw [heq]
    congr 1
    rw [hbufF, List.take_left' hpre]
  · rw [hbufF, List.append_assoc, List.take_left' hu16]
  · rw [hbufF, List.append_assoc, List.drop_left' hu16, List.take_left' henc]

/-- C5: an accepted payload (length at most `MSG_MAX_LEN`) is encrypted into
the ciphertext scratch buffer starting at offset 2, the ciphertext length
`len = payload.length + 16` is stored as a little-endian u16 in the buffer's
first 2 bytes, exactly `len + 2` bytes — the header followed by the
ciphertext — are emitted to the output, looping across partial writes and
suspensions, and the writer returns `len + 2`. -/
theorem write_frame_emits_header_and_ciphertext (enc : List Nat → List Nat)
    (msg buf : List Nat) (evs : List WEv) (fuel : Nat)
    (hsz : msg.length ≤ MSG_MAX_LEN)
    (henc : (enc msg).length = msg.length + NOISE_OVERHEAD)
    (hg : goodSched evs) (hacc : msg.length + NOISE_OVERHEAD + 2 ≤ naccepts evs)
    (hfuel : evs.length + 3 ≤ fuel) :
    ∃ evs' bufF, runWrite enc fuel (.prepare msg buf) evs [] 0 =
      ⟨.ready (.ok (msg.length + NOISE_OVERHEAD + 2)),
        .done (msg.length + NOISE_OVERHEAD + 2) msg bufF, evs',
        u16le (msg.length + NOISE_OVERHEAD) ++ enc msg, 1⟩ ∧
      bufF.take 2 = u16le (msg.length + NOISE_OVERHEAD) ∧
      (bufF.drop 2).take (msg.length + NOISE_OVERHEAD) = enc msg ∧
      (u16le (msg.length + NOISE_OVERHEAD) ++ enc msg).length =
        msg.length + NOISE_OVERHEAD + 2 := by
  obtain ⟨evs', bufF, heq, ht, hd, _⟩ :=
    runWrite_prepare_success enc msg buf evs fuel hsz henc hg hacc hfuel
  refine ⟨evs', bufF, heq, ht, hd, ?_⟩
  rw [List.length_append, henc]
  simp [u16le]
  omega

/-- C5 witness: a 3-byte payload with a 16-byte-overhead encryption and a
schedule of 21 one-byte-capable accepts produces the 2-byte header `[19, 0]`
followed by the 19-byte ciphertext and returns 21. -/
theorem write_frame_emits_header_and_ciphertext_witness :
    ∃ evs' bufF, runWrite (fun l => l ++ List.replicate 16 1) 24
        (.prepare [7, 8, 9] []) (List.replicate 21 (WEv.accept 64)) [] 0 =
      ⟨.ready (.ok ([7, 8, 9].length + NOISE_OVERHEAD + 2)),
        .done ([7, 8, 9].length + NOISE_OVERHEAD + 2) [7, 8, 9] bufF, evs',
        u16le ([7, 8, 9].length + NOISE_OVERHEAD) ++ ([7, 8, 9] ++ List.replicate 16 1), 1⟩ ∧
      bufF.take 2 = u16le ([7, 8, 9].length + NOISE_OVERHEAD) ∧
      (bufF.drop 2).take ([7, 8, 9].length + NOISE_OVERHEAD) = [7, 8, 9] ++ List.replicate 16 1 ∧
      (u16le ([7, 8, 9].length + NOISE_OVERHEAD) ++ ([7, 8, 9] ++ List.replicate 16 1)).length =
        [7, 8, 9].length + NOISE_OVERHEAD + 2 :=
  write_frame_emits_header_and_ciphertext (fun l => l ++ List.replicate 16 1)
    [7, 8, 9] [] (List.replicate 21 (WEv.accept 64)) 24
    (by decide) (by decide) (by decide) (by decide) (by decide)

/-- C8: for an accepted payload, when the ciphertext scratch buffer is
smaller than `payload.length + 16`, the frame writer grows it (to at least
`payload.length + 16` bytes) and still encrypts and emits the frame
successfully, returning `payload.length + 16 + 2`, rather than failing with
a buffer-size error. -/
theorem write_grows_undersized_buffer (enc : List Nat → List Nat)
    (msg buf : List Nat) (evs : List WEv) (fuel : Nat)
    (hsz : msg.length ≤ MSG_MAX_LEN)
    (hb : buf.length < msg.length + NOISE_OVERHEAD)
    (henc : (enc msg).length = msg.length + NOISE_OVERHEAD)
    (hg : goodSched evs) (hacc : msg.length + NOISE_OVERHEAD + 2 ≤ naccepts evs)
    (hfuel : evs.length + 3 ≤ fuel) :
    ∃ evs' bufF, runWrite enc fuel (.prepare msg buf) evs [] 0 =
      ⟨.ready (.ok (msg.length + NOISE_OVERHEAD + 2)),
        .done (msg.length + NOISE_OVERHEAD + 2) msg bufF, evs',
        u16le (msg.length + NOISE_OVERHEAD) ++ enc msg, 1⟩ ∧
      msg.length + NOISE_OVERHEAD ≤ bufF.length := by
  obtain ⟨evs', bufF, heq, _, _, hl⟩ :=
    runWrite_prepare_success enc msg buf evs fuel hsz henc hg hacc hfuel
  refine ⟨evs', bufF, heq, ?_⟩
  rw [hl]
  have hmo : MSG_OVERHEAD = 18 := rfl
  have hno : NOISE_OVERHEAD = 16 := rfl
  omega

/-- C8 witness: a 3-byte payload with an empty (0-byte) scratch buffer still
emits the 21-byte frame, and the final buffer holds at least 19 bytes. -/
theorem write_grows_undersized_buffer_witness :
    ∃ evs' bufF, runWrite (fun l => l ++ List.replicate 16 1) 24
        (.prepare [7, 8, 9] []) (List.replicate 21 (WEv.accept 64)) [] 0 =
      ⟨.ready (.ok ([7, 8, 9].length + NOISE_OVERHEAD + 2)),
        .done ([7, 8, 9].length + NOISE_OVERHEAD + 2) [7, 8, 9] bufF, evs',
        u16le ([7, 8, 9].length + NOISE_OVERHEAD) ++ ([7, 8, 9] ++ List.replicate 16 1), 1⟩ ∧
      [7, 8, 9].length + NOISE_OVERHEAD ≤ bufF.length :=
  write_grows_undersized_buffer (fun l => l ++ List.replicate 16 1)
    [7, 8, 9] [] (List.replicate 21 (WEv.accept 64)) 24
    (by decide) (by decide) (by decide) (by decide) (by decide) (by decide)

section Chains

variable {σ : Type} {Step : σ → HLbl → σ → Prop} {phase : σ → Nat}

theorem Chain.phase_mono (mono : ∀ (u : σ) (l : HLbl) (v : σ), Step u l v → phase u ≤ phase v)
    {s : σ} {tr : List HLbl} {t : σ} (ch : Chain Step s tr t) : phase s ≤ phase t := by
  induction ch with
  | nil s => exact le_refl _
  | cons st _ ih => exact le_trans (mono _ _ _ st) ih

theorem chain_get (mono : ∀ (u : σ) (l : HLbl) (v : σ), Step u l v → phase u ≤ phase v)
    {s : σ} {tr : List HLbl} {t : σ} (ch : Chain Step s tr t) :
    ∀ (i : Nat) (l : HLbl), tr[i]? = some l →
      ∃ u v, Step u l v ∧ phase s ≤ phase u ∧ phase v ≤ phase t := by
  induction ch with
  | nil s => intro i l h; simp at h
  | cons st ch ih =>
    rename_i s0 s1 t0 l0 tr0
    intro i l h
    match i with
    | 0 =>
      simp at h
      subst h
      exact ⟨s0, s1, st, le_refl _, Chain.phase_mono mono ch⟩
    | i + 1 =>
      simp at h
      obtain ⟨u, v, hst, hsu, hvt⟩ := ih i l h
      exact ⟨u, v, hst, le_trans (mono _ _ _ st) hsu, hvt⟩

theorem chain_pair (mono : ∀ (u : σ) (l : HLbl) (v : σ), Step u l v → phase u ≤ phase v)
    {s : σ} {tr : List HLbl} {t : σ} (ch : Chain Step s tr t) :
    ∀ (i j : Nat) (li lj : HLbl), i < j → tr[i]? = some li → tr[j]? = some lj →
      ∃ u1 v1 u2 v2, Step u1 li v1 ∧ Step u2 lj v2 ∧ phase v1 ≤ phase u2 := by
  induction ch with
  | nil s => intro i j li lj _ hi _; simp at hi
  | cons st ch ih =>
    rename_i s0 s1 t0 l0 tr0
    intro i j li lj hij hi hj
    match i, j with
    | 0, j + 1 =>
      simp at hi
      subst hi
      simp at hj
      obtain ⟨u2, v2, hst2, hsu2, _⟩ := chain_get mono ch j lj hj
      exact ⟨s0, s1, u2, v2, st, hst2, hsu2⟩
    | i + 1, j + 1 =>
      simp at hi hj
      exact ih i j li lj (by omega) hi hj

theorem chain_cross {s : σ} {tr : List HLbl} {t : σ} (ch : Chain Step s tr t) :
    ∀ (k : Nat), phase s ≤ k → k < phase t →
      ∃ (i : Nat) (l : HLbl) (u v : σ), tr[i]? = some l ∧ Step u l v ∧
        phase u ≤ k ∧ k < phase v := by
  induction ch with
  | nil s => intro k hs ht; omega
  | cons st ch ih =>
    rename_i s0 s1 t0 l0 tr0
    intro k hs ht
    by_cases hmid : phase s1 ≤ k
    · obtain ⟨i, l, u, v, hget, hstep, hu, hv⟩ := ih k hmid ht
      exact ⟨i + 1, l, u, v, by simpa using hget, hstep, hu, hv⟩
    · exact ⟨0, l0, s0, s1, by simp, st, hs, by omega⟩

theorem chain_order (mono : ∀ (u : σ) (l : HLbl) (v : σ), Step u l v → phase u ≤ phase v)
    {lA lB : HLbl} {a b : Nat}
    (hsA : ∀ u v, Step u lA v → a ≤ phase u) (hsB : ∀ u v, Step u lB v → phase u ≤ b)
    (hab : b < a) (hne : lA ≠ lB)
    {s : σ} {tr : List HLbl} {t : σ} (ch : Chain Step s tr t) :
    ∀ (i j : Nat), tr[i]? = some lA → tr[j]? = some lB → j < i := by
  intro i j hi hj
  rcases lt_trichotomy i j with h | h | h
  · exfalso
    obtain ⟨u1, v1, u2, v2, st1, st2, hle⟩ := chain_pair mono ch i j lA lB h hi hj
    have h1 := hsA _ _ st1
    have h2 := mono _ _ _ st1
    have h3 := hsB _ _ st2
    omega
  · exfalso
    rw [h, hj] at hi
    exact hne (Option.some.inj hi.symm)
  · exact h

theorem chain_boundary_mem {lab : HLbl} {k : Nat}
    (hk : ∀ u l v, Step u l v → phase u ≤ k → k < phase v → l = lab)
    {s : σ} {tr : List HLbl} {t : σ} (ch : Chain Step s tr t)
    (hs : phase s ≤ k) (ht : k < phase t) : lab ∈ tr := by
  obtain ⟨i, l, u, v, hget, hstep, hu, hv⟩ := chain_cross ch k hs ht
  have hl := hk u l v hstep hu hv
  subst hl
  exact List.getElem?_mem hget

end Chains

theorem imono : ∀ (u : IState) (l : HLbl) (v : IState), IStep u l v → iphase u ≤ iphase v := by
  intro u l v h
  cases h <;> simp [iphase]

theorem rmono : ∀ (u : RState) (l : HLbl) (v : RState), RStep u l v → rphase u ≤ rphase v := by
  intro u l v h
  cases h <;> simp [rphase]

theorem istep_src_pollWrite : ∀ (u v : IState), IStep u .pollWrite v → iphase u = 1 := by
  intro u v h
  cases h <;> rfl

theorem istep_src_pollFlush : ∀ (u v : IState), IStep u .pollFlush v → iphase u = 2 := by
  intro u v h
  cases h <;> rfl

theorem istep_src_pollRead : ∀ (u v : IState), IStep u .pollRead v → iphase u = 3 := by
  intro u v h
  cases h <;> rfl

theorem istep_src_convert : ∀ (u v : IState), IStep u .convert v → iphase u = 4 := by
  intro u v h
  cases h <;> rfl

theorem rstep_src_pollRead : ∀ (u v : RState), RStep u .pollRead v → rphase u = 1 := by
  intro u v h
  cases h <;> rfl

theorem rstep_src_pollWrite : ∀ (u v : RState), RStep u .pollWrite v → rphase u = 2 := by
  intro u v h
  cases h <;> rfl

theorem rstep_src_pollFlush : ∀ (u v : RState), RStep u .pollFlush v → rphase u = 3 := by
  intro u v h
  cases h <;> rfl

theorem rstep_src_convert : ∀ (u v : RState), RStep u .convert v → rphase u = 4 := by
  intro u v h
  cases h <;> rfl

theorem istep_cross1 : ∀ (u : IState) (l : HLbl) (v : IState), IStep u l v →
    iphase u ≤ 1 → 1 < iphase v → l = .pollWrite := by
  intro u l v h h1 h2
  cases h <;> simp_all [iphase]

theorem istep_cross2 : ∀ (u : IState) (l : HLbl) (v : IState), IStep u l v →
    iphase u ≤ 2 → 2 < iphase v → l = .pollFlush := by
  intro u l v h h1 h2
  cases h <;> simp_all [iphase]

theorem istep_cross3 : ∀ (u : IState) (l : HLbl) (v : IState), IStep u l v →
    iphase u ≤ 3 → 3 < iphase v → l = .pollRead := by
  intro u l v h h1 h2
  cases h <;> simp_all [iphase]

theorem istep_cross4 : ∀ (u : IState) (l : HLbl) (v : IState), IStep u l v →
    iphase u ≤ 4 → 4 < iphase v → l = .convert := by
  intro u l v h h1 h2
  cases h <;> simp_all [iphase]

theorem rstep_cross1 : ∀ (u : RState) (l : HLbl) (v : RState), RStep u l v →
    rphase u ≤ 1 → 1 < rphase v → l = .pollRead := by
  intro u l v h h1 h2
  cases h <;> simp_all [rphase]

theorem rstep_cross2 : ∀ (u : RState) (l : HLbl) (v : RState), RStep u l v →
    rphase u ≤ 2 → 2 < rphase v → l = .pollWrite := by
  intro u l v h h1 h2
  cases h <;> simp_all [rphase]

theorem rstep_cross3 : ∀ (u : RState) (l : HLbl) (v : RState), RStep u l v →
    rphase u ≤ 3 → 3 < rphase v → l = .pollFlush := by
  intro u l v h h1 h2
  cases h <;> simp_all [rphase]

theorem rstep_cross4 : ∀ (u : RState) (l : HLbl) (v : RState), RStep u l v →
    rphase u ≤ 4 → 4 < rphase v → l = .convert := by
  intro u l v h h1 h2
  cases h <;> simp_all [rphase]

/-- C9: every run of the initiator engine from `State` through the one-way
conversion performs its observable actions in the order `Write`-polls, then
`Flush`-polls, then `Read`-polls, then the conversion — in particular every
frame-read poll comes strictly after every write poll and every flush
poll — and every such run contains at least one of each; the responder
likewise performs reads, then writes, then flushes, then the conversion. -/
theorem handshake_order (itr rtr : List HLbl)
    (hi : Chain IStep .state itr .transport)
    (hr : Chain RStep .state rtr .transport) :
    ((HLbl.pollWrite ∈ itr ∧ HLbl.pollFlush ∈ itr ∧ HLbl.pollRead ∈ itr ∧
        HLbl.convert ∈ itr) ∧
     (∀ (i j : Nat), itr[i]? = some .pollFlush → itr[j]? = some .pollWrite → j < i) ∧
     (∀ (i j : Nat), itr[i]? = some .pollRead → itr[j]? = some .pollWrite → j < i) ∧
     (∀ (i j : Nat), itr[i]? = some .pollRead → itr[j]? = some .pollFlush → j < i) ∧
     (∀ (i j : Nat), itr[i]? = some .convert → itr[j]? = some .pollRead → j < i)) ∧
    ((HLbl.pollRead ∈ rtr ∧ HLbl.pollWrite ∈ rtr ∧ HLbl.pollFlush ∈ rtr ∧
        HLbl.convert ∈ rtr) ∧
     (∀ (i j : Nat), rtr[i]? = some .pollWrite → rtr[j]? = some .pollRead → j < i) ∧
     (∀ (i j : Nat), rtr[i]? = some .pollFlush → rtr[j]? = some .pollRead → j < i) ∧
     (∀ (i j : Nat), rtr[i]? = some .pollFlush → rtr[j]? = some .pollWrite → j < i) ∧
     (∀ (i j : Nat), rtr[i]? = some .convert → rtr[j]? = some .pollFlush → j < i)) := by
  refine ⟨⟨⟨?_, ?_, ?_, ?_⟩, ?_, ?_, ?_, ?_⟩, ⟨⟨?_, ?_, ?_, ?_⟩, ?_, ?_, ?_, ?_⟩⟩
  · exact chain_boundary_mem istep_cross1 hi (by decide) (by decide)
  · exact chain_boundary_mem istep_cross2 hi (by decide) (by decide)
  · exact chain_boundary_mem istep_cross3 hi (by decide) (by decide)
  · exact chain_boundary_mem istep_cross4 hi (by decide) (by decide)
  · exact chain_order imono
      (fun u v h => le_of_eq (istep_src_pollFlush u v h).symm)
      (fun u v h => le_of_eq (istep_src_pollWrite u v h))
      (by omega) (by decide) hi
  · exact chain_order imono
      (fun u v h => le_of_eq (istep_src_pollRead u v h).symm)
      (fun u v h => le_of_eq (istep_src_pollWrite u v h))
      (by omega) (by decide) hi
  · exact chain_order imono
      (fun u v h => le_of_eq (istep_src_pollRead u v h).symm)
      (fun u v h => le_of_eq (istep_src_pollFlush u v h))
      (by omega) (by decide) hi
  · exact chain_order imono
      (fun u v h => le_of_eq (istep_src_convert u v h).symm)
      (fun u v h => le_of_eq (istep_src_pollRead u v h))
      (by omega) (by decide) hi
  · exact chain_boundary_mem rstep_cross1 hr (by decide) (by decide)
  · exact chain_boundary_mem rstep_cross2 hr (by decide) (by decide)
  · exact chain_boundary_mem rstep_cross3 hr (by decide) (by decide)
  · exact chain_boundary_mem rstep_cross4 hr (by decide) (by decide)
  · exact chain_order rmono
      (fun u v h => le_of_eq (rstep_src_pollWrite u v h).symm)
      (fun u v h => le_of_eq (rstep_src_pollRead u v h))
      (by omega) (by decide) hr
  · exact chain_order rmono
      (fun u v h => le_of_eq (rstep_src_pollFlush u v h).symm)
      (fun u v h => le_of_eq (rstep_src_pollRead u v h))
      (by omega) (by decide) hr
  · exact chain_order rmono
      (fun u v h => le_of_eq (rstep_src_pollFlush u v h).symm)
      (fun u v h => le_of_eq (rstep_src_pollWrite u v h))
      (by omega) (by decide) hr
  · exact chain_order rmono
      (fun u v h => le_of_eq (rstep_src_convert u v h).symm)
      (fun u v h => le_of_eq (rstep_src_pollFlush u v h))
      (by omega) (by decide) hr

/-- C9 witness: the canonical five-step runs of both engines contain a write
poll and a read poll respectively. -/
theorem handshake_order_witness :
    HLbl.pollWrite ∈ ([.build, .pollWrite, .pollFlush, .pollRead, .convert] : List HLbl) ∧
    HLbl.pollRead ∈ ([.build, .pollRead, .pollWrite, .pollFlush, .convert] : List HLbl) := by
  have ci : Chain IStep .state
      ([.build, .pollWrite, .pollFlush, .pollRead, .convert] : List HLbl) .transport :=
    Chain.cons IStep.build (Chain.cons IStep.writeReady (Chain.cons IStep.flushReady
      (Chain.cons IStep.readReady (Chain.cons IStep.intoTransport (Chain.nil _)))))
  have cr : Chain RStep .state
      ([.build, .pollRead, .pollWrite, .pollFlush, .convert] : List HLbl) .transport :=
    Chain.cons RStep.build (Chain.cons RStep.readReady (Chain.cons RStep.writeReady
      (Chain.cons RStep.flushReady (Chain.cons RStep.intoTransport (Chain.nil _)))))
  exact ⟨(handshake_order _ _ ci cr).1.1.1, (handshake_order _ _ ci cr).2.1.1⟩

end Pr070c01
